import Mathlib

/-!
Verification of the personal library manager (`library_manager.py`).

Strings are modelled as `List Char`; the persisted file as the `List Char`
of its contents.  Each definition below is a direct translation of the
corresponding Python function or method; stateful methods become functions
on an explicit `LMState` (the in-memory catalog together with the backing
file contents), and fallible I/O becomes an explicit `Except` outcome
parameter.
-/

/-- Whitespace test used by `str.strip` (space, tab, newline, carriage return). -/
def is_ws (c : Char) : Bool := c == ' ' || c == '\t' || c == '\n' || c == '\r'

/-- Model of Python `str.strip`: drop whitespace from both ends. -/
def strip (s : List Char) : List Char := ((s.dropWhile is_ws).reverse.dropWhile is_ws).reverse

/-- Model of Python `str.lower` (character-wise lowercasing). -/
def lower (s : List Char) : List Char := s.map Char.toLower

/-- Model of Python `str.split(sep)` for a single-character separator:
splits into chunks, keeping empty chunks, never returning an empty list. -/
def split_ch (sep : Char) : List Char → List (List Char)
  | [] => [[]]
  | c :: rest =>
    if c == sep then [] :: split_ch sep rest
    else
      match split_ch sep rest with
      | [] => [[c]]
      | h :: t => (c :: h) :: t

/-- Does `hay` start with `needle`? (helper for the Python `in` operator). -/
def starts_with : List Char → List Char → Bool
  | [], _ => true
  | _ :: _, [] => false
  | a :: as, b :: bs => a == b && starts_with as bs

/-- Model of the Python substring operator `needle in hay`. -/
def is_substr (needle : List Char) : List Char → Bool
  | [] => needle.isEmpty
  | c :: rest => starts_with needle (c :: rest) || is_substr needle rest

/-- Decimal digit character for a digit value (values ≥ 9 clamp to `'9'`;
only ever applied to `n % 10`). -/
def dchar : Nat → Char
  | 0 => '0'
  | 1 => '1'
  | 2 => '2'
  | 3 => '3'
  | 4 => '4'
  | 5 => '5'
  | 6 => '6'
  | 7 => '7'
  | 8 => '8'
  | _ => '9'

/-- Numeric value of a decimal digit character. -/
def digit_val (c : Char) : Nat := c.toNat - 48

/-- Is `c` one of `'0'`..`'9'`? -/
def is_digit_ch (c : Char) : Bool := 48 ≤ c.toNat && c.toNat ≤ 57

/-- Little-endian decimal digits of `n`, with explicit fuel (the fuel is
always at least the number of digits, so it never runs out in `nat_to_str`). -/
def rev_digits : Nat → Nat → List Char
  | 0, _ => []
  | fuel + 1, n => if n = 0 then [] else dchar (n % 10) :: rev_digits fuel (n / 10)

/-- Model of Python `str(n)` for a natural number. -/
def nat_to_str (n : Nat) : List Char := if n = 0 then ['0'] else (rev_digits n n).reverse

/-- Model of Python `str(y)` for an integer (the year as written by `save_library`). -/
def int_repr (y : Int) : List Char :=
  if y < 0 then '-' :: nat_to_str y.natAbs else nat_to_str y.toNat

/-- Parse an unsigned decimal numeral: all characters must be digits and
there must be at least one. -/
def parse_nat (s : List Char) : Option Nat :=
  if !s.isEmpty && s.all is_digit_ch then some (s.foldl (fun a c => 10 * a + digit_val c) 0)
  else none

/-- Model of Python `int(s)`: optional surrounding whitespace, optional
single sign, then a non-empty digit string; anything else raises
(returns `none`). -/
def parse_int (s : List Char) : Option Int :=
  match strip s with
  | [] => none
  | c :: rest =>
    if c = '-' then (parse_nat rest).map (fun n => -(n : Int))
    else if c = '+' then (parse_nat rest).map (fun n => (n : Int))
    else (parse_nat (c :: rest)).map (fun n => (n : Int))

/-- A record of the catalog: the book dictionary built by `add_book` and
`load_library`. -/
structure Book where
  title : List Char
  author : List Char
  year : Int
  genre : List Char
  read : Bool
  date_added : List Char
deriving DecidableEq

/-- The state of a `LibraryManager`: the in-memory catalog (`self.library`)
and the contents of the backing file at `self.file_path`. -/
structure LMState where
  library : List Book
  file : List Char
deriving DecidableEq

/-- The literal `"Read"` written and compared by the code. -/
def read_tag : List Char := ['R', 'e', 'a', 'd']

/-- The literal `"Unread"`. -/
def unread_tag : List Char := ['U', 'n', 'r', 'e', 'a', 'd']

/-- The read-status text serialized by `save_library`. -/
def read_status_str (b : Bool) : List Char := if b then read_tag else unread_tag

/-- One line written by `save_library` for one book
(`f"{title}|{author}|{year}|{genre}|{status}|{date_added}\n"`). -/
def book_line (b : Book) : List Char :=
  b.title ++ '|' :: b.author ++ '|' :: int_repr b.year ++ '|' :: b.genre ++
    '|' :: read_status_str b.read ++ '|' :: b.date_added ++ ['\n']

/-- The full file contents written by `save_library`: one `book_line` per
book, in catalog order (the file is opened in mode `'w'`, so previous
contents are overwritten). -/
def serialize_library (lib : List Book) : List Char := (lib.map book_line).flatten

/-- Field unpacking of `load_library`: needs at least 6 `'|'`-separated
fields (`parts[:6]`, extra fields dropped); the year falls back to `0`
when `int(year)` fails; the read flag is `read_status == "Read"`. -/
def parse_fields (parts : List (List Char)) : Option Book :=
  match parts with
  | t :: a :: y :: g :: r :: d :: _ =>
      some { title := t, author := a, year := (parse_int y).getD 0, genre := g,
             read := decide (r = read_tag), date_added := d }
  | _ => none

/-- Processing of one line by `load_library`: strip, skip if blank,
split on `'|'`, skip if fewer than 6 fields. -/
def parse_line (chunk : List Char) : Option Book :=
  let s := strip chunk
  if s.isEmpty then none else parse_fields (split_ch '|' s)

/-- Does processing this line print the invalid-year warning?  True exactly
when the line is parsed as a record but `int(year)` fails. -/
def parse_line_warns (chunk : List Char) : Bool :=
  let s := strip chunk
  if s.isEmpty then false
  else
    match split_ch '|' s with
    | _ :: _ :: y :: _ :: _ :: _ :: _ => (parse_int y).isNone
    | _ => false

/-- The successful read path of `load_library`: iterate over the lines of
the file and collect every parsed record. -/
def load_lines (contents : List Char) : List Book :=
  (split_ch '\n' contents).filterMap parse_line

/-- Method `add_book`: append the new record and persist the whole catalog. -/
def add_book (s : LMState) (title author : List Char) (year : Int) (genre : List Char)
    (read_status : Bool) (today : List Char) : LMState :=
  let b : Book := { title := title, author := author, year := year, genre := genre,
                    read := read_status, date_added := today }
  { library := s.library ++ [b], file := serialize_library (s.library ++ [b]) }

/-- Method `remove_book`: keep the records whose lowercased title differs
from the lowercased argument; persist and report success when the catalog
shrank, otherwise report not-found.  The returned `Bool` is the printed
outcome (removed / not found). -/
def remove_book (s : LMState) (title : List Char) : LMState × Bool :=
  let new_lib := s.library.filter (fun b => !decide (lower b.title = lower title))
  if new_lib.length < s.library.length then
    ({ library := new_lib, file := serialize_library new_lib }, true)
  else
    ({ s with library := new_lib }, false)

/-- Method `search_by_title`: case-insensitive substring match on the title;
builds a fresh result list, leaving the catalog untouched. -/
def search_by_title (lib : List Book) (q : List Char) : List Book :=
  lib.filter (fun b => is_substr (lower q) (lower b.title))

/-- Method `search_by_author`: same, on the author field. -/
def search_by_author (lib : List Book) (q : List Char) : List Book :=
  lib.filter (fun b => is_substr (lower q) (lower b.author))

/-- Method `display_statistics`: on an empty catalog it prints
"Your library is empty." and shows no numbers (`none`); otherwise it
reports total, read count and `(read / total) * 100` percent. -/
def display_statistics (lib : List Book) : Option (Nat × Nat × ℚ) :=
  if lib.length = 0 then none
  else
    let read_books := lib.countP (fun b => b.read)
    some (lib.length, read_books, ((read_books : ℚ) / (lib.length : ℚ)) * 100)

/-- Method `save_library`, successful path: rewrite the file from the
in-memory catalog; the catalog itself is untouched. -/
def save_library (s : LMState) : LMState :=
  { library := s.library, file := serialize_library s.library }

/-- Diagnostic carried by a raised I/O exception. -/
structure IOErr where
  msg : List Char

/-- Method `save_library` with its `try`/`except`: on success the file
holds the serialized catalog; on an exception the error is printed and
swallowed (the caller continues), the in-memory catalog is untouched, and
the file is left with whatever the failed write produced (`disk_after`). -/
def save_library_attempt (s : LMState) (result : Except IOErr Unit)
    (disk_after : List Char) : LMState :=
  match result with
  | Except.ok _ => { library := s.library, file := serialize_library s.library }
  | Except.error _ => { library := s.library, file := disk_after }

/-- Method `load_library` with its `try`/`except`: on a successful read the
catalog is rebuilt from the file contents; on an exception the error is
printed and the catalog is reset to `[]` (never left partially filled). -/
def load_library (s : LMState) (result : Except IOErr (List Char)) : LMState :=
  match result with
  | Except.ok contents => { s with library := load_lines contents }
  | Except.error _ => { s with library := [] }

/-! Supporting lemmas about the string utilities. -/

theorem split_ch_ne_nil (sep : Char) (s : List Char) : split_ch sep s ≠ [] := by
  induction s with
  | nil => simp [split_ch]
  | cons c rest ih =>
    unfold split_ch
    by_cases h : c == sep
    · simp [h]
    · simp only [h]
      cases hr : split_ch sep rest with
      | nil => simp
      | cons a b => simp

theorem split_ch_of_not_mem {sep : Char} {s : List Char} (h : sep ∉ s) :
    split_ch sep s = [s] := by
  induction s with
  | nil => rfl
  | cons c rest ih =>
    have hc : ¬(c == sep) = true := by
      simp only [beq_iff_eq]
      intro e
      exact h (e ▸ List.mem_cons_self c rest)
    have hrest : sep ∉ rest := fun m => h (List.mem_cons_of_mem c m)
    simp only [Bool.not_eq_true] at hc
    unfold split_ch
    rw [hc, ih hrest]
    rfl

theorem split_ch_append {sep : Char} {xs : List Char} (ys : List Char) (h : sep ∉ xs) :
    split_ch sep (xs ++ sep :: ys) = xs :: split_ch sep ys := by
  induction xs with
  | nil => simp [split_ch]
  | cons c rest ih =>
    have hc : (c == sep) = false := by
      simp only [beq_eq_false_iff_ne]
      intro e
      exact h (e ▸ List.mem_cons_self c rest)
    have hrest : sep ∉ rest := fun m => h (List.mem_cons_of_mem c m)
    show split_ch sep (c :: (rest ++ sep :: ys)) = (c :: rest) :: split_ch sep ys
    conv_lhs => unfold split_ch
    rw [hc, ih hrest]
    rfl

theorem dropWhile_eq_self_of_head {p : Char → Bool} {s : List Char}
    (h : ∀ c, s.head? = some c → p c = false) : s.dropWhile p = s := by
  cases s with
  | nil => rfl
  | cons c t => exact List.dropWhile_cons_of_neg (by simp [h c rfl])

theorem strip_eq_self {s : List Char}
    (h1 : ∀ c, s.head? = some c → is_ws c = false)
    (h2 : ∀ c, s.getLast? = some c → is_ws c = false) : strip s = s := by
  unfold strip
  rw [dropWhile_eq_self_of_head h1,
      dropWhile_eq_self_of_head (by simpa using h2), List.reverse_reverse]

/-! Lemmas about decimal numerals. -/

/-- Accumulated value of a little-endian digit list. -/
def val_rev : List Char → Nat
  | [] => 0
  | c :: t => digit_val c + 10 * val_rev t

theorem dchar_spec {d : Nat} (h : d < 10) :
    is_digit_ch (dchar d) = true ∧ digit_val (dchar d) = d := by
  interval_cases d <;> exact ⟨by decide, by decide⟩

theorem is_digit_ch_toNat {c : Char} (h : is_digit_ch c = true) :
    48 ≤ c.toNat ∧ c.toNat ≤ 57 := by
  simpa [is_digit_ch, Bool.and_eq_true, decide_eq_true_eq] using h

theorem digit_not_ws {c : Char} (h : is_digit_ch c = true) : is_ws c = false := by
  have hn := is_digit_ch_toNat h
  have h1 : c ≠ ' ' := fun e => by rw [e] at h; exact absurd h (by decide)
  have h2 : c ≠ '\t' := fun e => by rw [e] at h; exact absurd h (by decide)
  have h3 : c ≠ '\n' := fun e => by rw [e] at h; exact absurd h (by decide)
  have h4 : c ≠ '\r' := fun e => by rw [e] at h; exact absurd h (by decide)
  simp [is_ws, beq_eq_false_iff_ne, h1, h2, h3, h4]

theorem digit_ne_of {c : Char} (h : is_digit_ch c = true) (d : Char)
    (hd : is_digit_ch d = false) : c ≠ d := fun e => by
  rw [e] at h
  rw [h] at hd
  exact absurd hd (by decide)

theorem rev_digits_spec : ∀ (fuel n : Nat), n ≤ fuel →
    (rev_digits fuel n).all is_digit_ch = true ∧
    val_rev (rev_digits fuel n) = n ∧ (n ≠ 0 → rev_digits fuel n ≠ []) := by
  intro fuel
  induction fuel with
  | zero =>
    intro n hn
    have : n = 0 := Nat.le_zero.mp hn
    subst this
    exact ⟨rfl, rfl, fun h => absurd rfl h⟩
  | succ fuel ih =>
    intro n hn
    by_cases h0 : n = 0
    · subst h0
      exact ⟨rfl, rfl, fun h => absurd rfl h⟩
    · have hstep : rev_digits (fuel + 1) n = dchar (n % 10) :: rev_digits fuel (n / 10) := by
        conv_lhs => unfold rev_digits
        rw [if_neg h0]
      have hdiv : n / 10 ≤ fuel := by
        have : n / 10 < n := Nat.div_lt_self (Nat.pos_of_ne_zero h0) (by omega)
        omega
      obtain ⟨iha, ihv, _⟩ := ih (n / 10) hdiv
      have hd := dchar_spec (Nat.mod_lt n (by omega))
      refine ⟨?_, ?_, ?_⟩
      · rw [hstep]
        simp only [List.all_cons, Bool.and_eq_true]
        exact ⟨hd.1, iha⟩
      · rw [hstep]
        unfold val_rev
        rw [hd.2, ihv]
        omega
      · intro _
        rw [hstep]
        simp

theorem foldl_reverse_val (r : List Char) :
    List.foldl (fun a c => 10 * a + digit_val c) 0 r.reverse = val_rev r := by
  induction r with
  | nil => rfl
  | cons c t ih =>
    rw [List.reverse_cons, List.foldl_append, ih]
    show 10 * val_rev t + digit_val c = val_rev (c :: t)
    simp only [val_rev]
    omega

theorem nat_to_str_all_digits (n : Nat) : (nat_to_str n).all is_digit_ch = true := by
  unfold nat_to_str
  by_cases h : n = 0
  · rw [if_pos h]
    decide
  · rw [if_neg h, List.all_reverse]
    exact (rev_digits_spec n n (Nat.le_refl n)).1

theorem nat_to_str_ne_nil (n : Nat) : nat_to_str n ≠ [] := by
  unfold nat_to_str
  by_cases h : n = 0
  · rw [if_pos h]
    simp
  · rw [if_neg h]
    simpa using (rev_digits_spec n n (Nat.le_refl n)).2.2 h

theorem parse_nat_round_trip (n : Nat) : parse_nat (nat_to_str n) = some n := by
  unfold parse_nat
  rw [if_pos]
  · congr 1
    unfold nat_to_str
    by_cases h : n = 0
    · rw [if_pos h, h]
      decide
    · rw [if_neg h, foldl_reverse_val]
      exact (rev_digits_spec n n (Nat.le_refl n)).2.1
  · rw [Bool.and_eq_true]
    constructor
    · simpa using nat_to_str_ne_nil n
    · exact nat_to_str_all_digits n

theorem all_digits_head_last {s : List Char} (hall : s.all is_digit_ch = true) :
    (∀ c, s.head? = some c → is_ws c = false) ∧
    (∀ c, s.getLast? = some c → is_ws c = false) := by
  constructor
  · intro c hc
    cases s with
    | nil => simp at hc
    | cons a t =>
      simp only [List.head?_cons, Option.some.injEq] at hc
      subst hc
      rw [List.all_cons, Bool.and_eq_true] at hall
      exact digit_not_ws hall.1
  · intro c hc
    have hmem : c ∈ s := List.mem_of_getLast?_eq_some hc
    exact digit_not_ws ((List.all_eq_true.mp hall) c hmem)

theorem strip_of_all_digits {s : List Char} (h : s.all is_digit_ch = true) : strip s = s :=
  strip_eq_self (all_digits_head_last h).1 (all_digits_head_last h).2

theorem parse_int_of_strip_cons {s : List Char} {c : Char} {rest : List Char}
    (h : strip s = c :: rest) :
    parse_int s = (if c = '-' then (parse_nat rest).map (fun n => -(n : Int))
      else if c = '+' then (parse_nat rest).map (fun n => (n : Int))
      else (parse_nat (c :: rest)).map (fun n => (n : Int))) := by
  unfold parse_int
  rw [h]

theorem parse_int_round_trip (y : Int) : parse_int (int_repr y) = some y := by
  unfold int_repr
  by_cases hy : y < 0
  · rw [if_pos hy]
    have hall := nat_to_str_all_digits y.natAbs
    have hne := nat_to_str_ne_nil y.natAbs
    have hstrip : strip ('-' :: nat_to_str y.natAbs) = '-' :: nat_to_str y.natAbs := by
      apply strip_eq_self
      · intro c hc
        simp only [List.head?_cons, Option.some.injEq] at hc
        subst hc
        decide
      · intro c hc
        have hmem := List.mem_of_getLast?_eq_some hc
        rcases List.mem_cons.mp hmem with h1 | h2
        · subst h1
          decide
        · exact digit_not_ws (List.all_eq_true.mp hall c h2)
    rw [parse_int_of_strip_cons hstrip, if_pos rfl, parse_nat_round_trip]
    show some (-(y.natAbs : Int)) = some y
    congr 1
    omega
  · rw [if_neg hy]
    have hall := nat_to_str_all_digits y.toNat
    have hne := nat_to_str_ne_nil y.toNat
    have hpn := parse_nat_round_trip y.toNat
    cases heq : nat_to_str y.toNat with
    | nil => exact absurd heq hne
    | cons c rest =>
      rw [heq] at hall hpn
      have hcdig : is_digit_ch c = true := by
        rw [List.all_cons, Bool.and_eq_true] at hall
        exact hall.1
      have hstrip : strip (c :: rest) = c :: rest := strip_of_all_digits hall
      rw [parse_int_of_strip_cons hstrip,
          if_neg (digit_ne_of hcdig '-' (by decide)),
          if_neg (digit_ne_of hcdig '+' (by decide)), hpn]
      show some ((y.toNat : Int)) = some y
      congr 1
      omega

/-! Facts about the serialized form of one book. -/

theorem mem_int_repr {y : Int} {c : Char} (h : c ∈ int_repr y) :
    is_digit_ch c = true ∨ c = '-' := by
  unfold int_repr at h
  by_cases hy : y < 0
  · rw [if_pos hy] at h
    rcases List.mem_cons.mp h with h1 | h2
    · right
      exact h1
    · left
      exact List.all_eq_true.mp (nat_to_str_all_digits _) c h2
  · rw [if_neg hy] at h
    left
    exact List.all_eq_true.mp (nat_to_str_all_digits _) c h

theorem pipe_not_mem_int_repr (y : Int) : '|' ∉ int_repr y := by
  intro h
  rcases mem_int_repr h with h1 | h1
  · exact absurd h1 (by decide)
  · exact absurd h1 (by decide)

theorem nl_not_mem_int_repr (y : Int) : '\n' ∉ int_repr y := by
  intro h
  rcases mem_int_repr h with h1 | h1
  · exact absurd h1 (by decide)
  · exact absurd h1 (by decide)

theorem pipe_not_mem_status (r : Bool) : '|' ∉ read_status_str r := by
  cases r <;> decide

theorem nl_not_mem_status (r : Bool) : '\n' ∉ read_status_str r := by
  cases r <;> decide

/-- The serialized line of a book without its trailing newline. -/
def book_body (b : Book) : List Char :=
  b.title ++ '|' :: b.author ++ '|' :: int_repr b.year ++ '|' :: b.genre ++
    '|' :: read_status_str b.read ++ '|' :: b.date_added

theorem book_line_eq (b : Book) : book_line b = book_body b ++ ['\n'] := by
  unfold book_line book_body
  simp [List.append_assoc]

/-- Sufficient condition on one record for its serialized line to be parsed
back unchanged: no field contains the separator `'|'` or a newline, the
title does not begin with whitespace and the date does not end with it. -/
def round_safe (b : Book) : Bool :=
  decide ('|' ∉ b.title) && decide ('|' ∉ b.author) &&
  decide ('|' ∉ b.genre) && decide ('|' ∉ b.date_added) &&
  decide ('\n' ∉ b.title) && decide ('\n' ∉ b.author) &&
  decide ('\n' ∉ b.genre) && decide ('\n' ∉ b.date_added) &&
  (match b.title.head? with
   | none => true
   | some c => !is_ws c) &&
  (match b.date_added.getLast? with
   | none => true
   | some c => !is_ws c)

theorem round_safe_spec {b : Book} (h : round_safe b = true) :
    ('|' ∉ b.title ∧ '|' ∉ b.author ∧ '|' ∉ b.genre ∧ '|' ∉ b.date_added) ∧
    ('\n' ∉ b.title ∧ '\n' ∉ b.author ∧ '\n' ∉ b.genre ∧ '\n' ∉ b.date_added) ∧
    (∀ c, b.title.head? = some c → is_ws c = false) ∧
    (∀ c, b.date_added.getLast? = some c → is_ws c = false) := by
  unfold round_safe at h
  simp only [Bool.and_eq_true, decide_eq_true_eq] at h
  obtain ⟨⟨⟨⟨⟨⟨⟨⟨⟨h1, h2⟩, h3⟩, h4⟩, h5⟩, h6⟩, h7⟩, h8⟩, h9⟩, h10⟩ := h
  refine ⟨⟨h1, h2, h3, h4⟩, ⟨h5, h6, h7, h8⟩, ?_, ?_⟩
  · intro c hc
    rw [hc] at h9
    simpa using h9
  · intro c hc
    rw [hc] at h10
    simpa using h10

theorem mem_book_body {b : Book} {c : Char} (h : c ∈ book_body b) :
    c ∈ b.title ∨ c ∈ b.author ∨ c ∈ int_repr b.year ∨ c ∈ b.genre ∨
    c ∈ read_status_str b.read ∨ c ∈ b.date_added ∨ c = '|' := by
  unfold book_body at h
  simp only [List.mem_append, List.mem_cons] at h
  tauto

theorem nl_not_mem_book_body {b : Book} (h : round_safe b = true) :
    '\n' ∉ book_body b := by
  obtain ⟨_, ⟨n1, n2, n3, n4⟩, _, _⟩ := round_safe_spec h
  intro hm
  rcases mem_book_body hm with h1 | h1 | h1 | h1 | h1 | h1 | h1
  · exact n1 h1
  · exact n2 h1
  · exact nl_not_mem_int_repr b.year h1
  · exact n3 h1
  · exact nl_not_mem_status b.read h1
  · exact n4 h1
  · exact absurd h1 (by decide)

theorem book_body_ne_nil (b : Book) : book_body b ≠ [] := by
  unfold book_body
  cases b.title <;> simp

theorem split_book_body {b : Book} (h : round_safe b = true) :
    split_ch '|' (book_body b) =
      [b.title, b.author, int_repr b.year, b.genre, read_status_str b.read, b.date_added] := by
  obtain ⟨⟨p1, p2, p3, p4⟩, _, _, _⟩ := round_safe_spec h
  unfold book_body
  simp only [List.cons_append, List.append_assoc]
  rw [split_ch_append _ p1, split_ch_append _ p2,
      split_ch_append _ (pipe_not_mem_int_repr b.year), split_ch_append _ p3,
      split_ch_append _ (pipe_not_mem_status b.read), split_ch_of_not_mem p4]

theorem book_body_head {b : Book} (h : round_safe b = true) :
    ∀ c, (book_body b).head? = some c → is_ws c = false := by
  obtain ⟨_, _, h9, _⟩ := round_safe_spec h
  intro c hc
  unfold book_body at hc
  cases ht : b.title with
  | nil =>
    rw [ht] at hc
    simp only [List.nil_append, List.cons_append, List.head?_cons, Option.some.injEq] at hc
    subst hc
    decide
  | cons x xs =>
    rw [ht] at hc
    simp only [List.cons_append, List.head?_cons, Option.some.injEq] at hc
    subst hc
    exact h9 _ (by rw [ht] ; rfl)

theorem book_body_last {b : Book} (h : round_safe b = true) :
    ∀ c, (book_body b).getLast? = some c → is_ws c = false := by
  obtain ⟨_, _, _, h10⟩ := round_safe_spec h
  intro c hc
  have hbody : book_body b =
      (b.title ++ '|' :: b.author ++ '|' :: int_repr b.year ++ '|' :: b.genre ++
        '|' :: read_status_str b.read) ++ '|' :: b.date_added := by
    unfold book_body
    simp [List.append_assoc]
  rw [hbody, List.getLast?_append_of_ne_nil _ (by simp)] at hc
  cases hd : b.date_added with
  | nil =>
    rw [hd] at hc
    simp only [List.getLast?_singleton, Option.some.injEq] at hc
    subst hc
    decide
  | cons x xs =>
    rw [hd] at hc
    rw [List.getLast?_cons_cons] at hc
    exact h10 c (by rw [hd] ; exact hc)

theorem strip_book_body {b : Book} (h : round_safe b = true) :
    strip (book_body b) = book_body b :=
  strip_eq_self (book_body_head h) (book_body_last h)

theorem parse_line_book_body {b : Book} (h : round_safe b = true) :
    parse_line (book_body b) = some b := by
  unfold parse_line
  simp only [strip_book_body h]
  rw [if_neg (by simpa using book_body_ne_nil b)]
  rw [split_book_body h]
  unfold parse_fields
  simp only [Option.some.injEq]
  have hread : decide (read_status_str b.read = read_tag) = b.read := by
    cases b.read <;> decide
  rw [parse_int_round_trip]
  cases b
  simp_all

theorem load_lines_nil : load_lines [] = [] := rfl

/-- Helper: loading one well-formed serialized line prepends its book. -/
theorem load_lines_cons {b : Book} (h : round_safe b = true) (rest : List Char) :
    load_lines (book_body b ++ '\n' :: rest) = b :: load_lines rest := by
  unfold load_lines
  rw [split_ch_append _ (nl_not_mem_book_body h),
      List.filterMap_cons_some (parse_line_book_body h)]

theorem serialize_cons (b : Book) (t : List Book) :
    serialize_library (b :: t) = book_body b ++ '\n' :: serialize_library t := by
  unfold serialize_library
  rw [List.map_cons, List.flatten_cons, book_line_eq]
  simp [List.append_assoc]

/-- Claim C1, amended.  Saving then loading a catalog reproduces it
field-for-field and in order, provided every record is `round_safe`: its
title, author, genre and date_added contain no literal `'|'` and no
newline, its title does not begin with a whitespace character, and its
date_added does not end with one.  (The original claim, which only
excludes `'|'` from titles, authors and genres, is refuted by
`c1_round_trip_counterexample`: `load_library` strips each line, so a
leading-whitespace title is altered by the round trip.) -/
theorem c1_round_trip_amended (lib : List Book) (h : ∀ b ∈ lib, round_safe b = true) :
    load_lines (serialize_library lib) = lib := by
  induction lib with
  | nil => rfl
  | cons b t ih =>
    rw [serialize_cons, load_lines_cons (h b (List.mem_cons_self b t)),
        ih (fun x hx => h x (List.mem_cons_of_mem b hx))]

/-- A concrete two-record catalog exercising the round trip (negative year,
empty genre and empty date included). -/
def c1_lib : List Book :=
  [⟨['D', 'u', 'n', 'e'], ['H', 'e', 'r', 'b', 'e', 'r', 't'], 1965, ['S', 'F'], true,
      ['2', '0', '2', '0', '-', '0', '1', '-', '0', '2']⟩,
   ⟨['E', 'm', 'm', 'a'], ['A', 'u', 's', 't', 'e', 'n'], -5, [], false, []⟩]

/-- Witness for C1: the amended round-trip theorem applied to `c1_lib`. -/
theorem c1_round_trip_witness :
    (∀ b ∈ c1_lib, round_safe b = true) ∧
    load_lines (serialize_library c1_lib) = c1_lib :=
  ⟨by decide, c1_round_trip_amended c1_lib (by decide)⟩

/-- A record whose fields contain no `'|'` at all, but whose title starts
with a space. -/
def c1_bad : Book :=
  ⟨[' ', 'A'], ['B'], 2000, ['G'], true, ['2', '0', '2', '0', '-', '0', '1', '-', '0', '1']⟩

/-- Counterexample to claim C1 as stated: `c1_bad` has no `'|'` in its
title, author or genre, yet saving and loading the one-record catalog does
not reproduce it (the leading space of the title is stripped on load). -/
theorem c1_round_trip_counterexample :
    ('|' ∉ c1_bad.title ∧ '|' ∉ c1_bad.author ∧ '|' ∉ c1_bad.genre) ∧
    load_lines (serialize_library [c1_bad]) ≠ [c1_bad] := by
  decide

/-- Claim C8.  Calling save twice in a row with no intervening mutation
produces byte-identical file contents: `save_library` writes a
deterministic function of the unchanged catalog and fully overwrites the
file (mode `'w'`). -/
theorem c8_save_idempotent (s : LMState) :
    (save_library (save_library s)).file = (save_library s).file := rfl

/-! Lemmas about removal by predicate. -/

theorem remove_shrinks_iff (p : Book → Bool) (l : List Book) :
    (l.filter (fun b => !p b)).length < l.length ↔ ∃ b ∈ l, p b = true := by
  induction l with
  | nil => simp
  | cons a t ih =>
    rw [List.filter_cons]
    by_cases ha : p a = true
    · have hle := List.length_filter_le (fun b => !p b) t
      simp only [ha, Bool.not_true, Bool.false_eq_true, if_false, List.length_cons]
      constructor
      · intro _
        exact ⟨a, List.mem_cons_self a t, ha⟩
      · intro _
        omega
    · have ha' : p a = false := Bool.not_eq_true _ ▸ (by simpa using ha)
      simp only [ha', Bool.not_false, if_true, List.length_cons, Nat.add_lt_add_iff_right]
      rw [ih]
      constructor
      · rintro ⟨b, hb, hpb⟩
        exact ⟨b, List.mem_cons_of_mem a hb, hpb⟩
      · rintro ⟨b, hb, hpb⟩
        rcases List.mem_cons.mp hb with h1 | h1
        · rw [h1] at hpb
          rw [ha'] at hpb
          exact absurd hpb (by decide)
        · exact ⟨b, h1, hpb⟩

theorem length_filter_not_add_countP (p : Book → Bool) (l : List Book) :
    (l.filter (fun b => !p b)).length + l.countP p = l.length := by
  induction l with
  | nil => rfl
  | cons a t ih =>
    rw [List.filter_cons, List.countP_cons]
    by_cases ha : p a = true
    · simp only [ha, Bool.not_true, Bool.false_eq_true, if_false, if_true, List.length_cons]
      omega
    · have ha' : p a = false := by simpa using ha
      simp only [ha', Bool.not_false, if_true, Bool.false_eq_true, if_false, List.length_cons]
      omega

/-- Claim C2.  `remove_book` removes exactly the records whose title equals
the given title case-insensitively (exact equality, not substring): the
resulting catalog is the filter keeping all other records; the reported
flag is true iff some record matched; and the file is rewritten from the
new catalog iff the flag is true, otherwise it is untouched. -/
theorem c2_remove_spec (s : LMState) (t : List Char) :
    (remove_book s t).1.library =
      s.library.filter (fun b => !decide (lower b.title = lower t)) ∧
    ((remove_book s t).2 = true ↔ ∃ b ∈ s.library, lower b.title = lower t) ∧
    (remove_book s t).1.file =
      (if (remove_book s t).2 = true then serialize_library (remove_book s t).1.library
       else s.file) := by
  unfold remove_book
  by_cases h :
      (s.library.filter (fun b => !decide (lower b.title = lower t))).length < s.library.length
  · rw [if_pos h]
    refine ⟨rfl, ?_, rfl⟩
    simp only [true_iff]
    obtain ⟨b, hb, hpb⟩ := (remove_shrinks_iff (fun b => decide (lower b.title = lower t))
      s.library).mp h
    exact ⟨b, hb, of_decide_eq_true hpb⟩
  · rw [if_neg h]
    refine ⟨rfl, ?_, rfl⟩
    simp only [Bool.false_eq_true, false_iff]
    intro ⟨b, hb, hpb⟩
    exact h ((remove_shrinks_iff (fun b => decide (lower b.title = lower t)) s.library).mpr
      ⟨b, hb, decide_eq_true hpb⟩)

/-- Claim C3, amended.  If the catalog contains exactly one record whose
title equals the given title case-insensitively, `remove_book` removes it
and the record count decreases by exactly one; if it contains none, the
state is returned unchanged and not-found is reported.  (The original
claim, quantified over every catalog containing such a record, is refuted
by `c3_remove_counterexample`: with two matching records the count drops
by two, because removal deletes all matches.) -/
theorem c3_remove_one_or_none (s : LMState) (t : List Char) :
    (s.library.countP (fun b => decide (lower b.title = lower t)) = 1 →
      (remove_book s t).1.library.length + 1 = s.library.length ∧
      (remove_book s t).2 = true) ∧
    (s.library.countP (fun b => decide (lower b.title = lower t)) = 0 →
      (remove_book s t).1 = s ∧ (remove_book s t).2 = false) := by
  constructor
  · intro h1
    have hlen := length_filter_not_add_countP (fun b => decide (lower b.title = lower t)) s.library
    rw [h1] at hlen
    have hex : ∃ b ∈ s.library, decide (lower b.title = lower t) = true :=
      List.countP_pos_iff.mp (by omega)
    have hlt := (remove_shrinks_iff (fun b => decide (lower b.title = lower t)) s.library).mpr hex
    unfold remove_book
    rw [if_pos hlt]
    exact ⟨by simpa using hlen, rfl⟩
  · intro h0
    have hall := List.countP_eq_zero.mp h0
    have heq : s.library.filter (fun b => !decide (lower b.title = lower t)) = s.library := by
      apply List.filter_eq_self.mpr
      intro a ha
      simp only [Bool.not_eq_eq_eq_not, Bool.not_true]
      simpa using hall a ha
    unfold remove_book
    rw [heq, if_neg (by omega)]
    exact ⟨rfl, rfl⟩

/-- State with exactly one record titled "dune" (lower case). -/
def c3_one : LMState :=
  ⟨[⟨['d', 'u', 'n', 'e'], ['H'], 1965, ['S', 'F'], true, ['2', '0', '2', '0']⟩,
    ⟨['E', 'm', 'm', 'a'], ['A'], 1815, ['R'], false, ['2', '0', '2', '1']⟩], []⟩

/-- State with no record matching "Dune". -/
def c3_none : LMState :=
  ⟨[⟨['E', 'm', 'm', 'a'], ['A'], 1815, ['R'], false, ['2', '0', '2', '1']⟩], []⟩

/-- Witness for C3: removing "Dune" from `c3_one` (which holds one record
titled "dune") shrinks the catalog by exactly one and reports removal;
removing it from `c3_none` leaves the state unchanged and reports
not-found. -/
theorem c3_remove_witness :
    ((remove_book c3_one ['D', 'u', 'n', 'e']).1.library.length + 1 =
        c3_one.library.length ∧
      (remove_book c3_one ['D', 'u', 'n', 'e']).2 = true) ∧
    ((remove_book c3_none ['D', 'u', 'n', 'e']).1 = c3_none ∧
      (remove_book c3_none ['D', 'u', 'n', 'e']).2 = false) :=
  ⟨(c3_remove_one_or_none c3_one ['D', 'u', 'n', 'e']).1 (by decide),
   (c3_remove_one_or_none c3_none ['D', 'u', 'n', 'e']).2 (by decide)⟩

/-- State with two records titled "dune"/"DUNE". -/
def c3_two : LMState :=
  ⟨[⟨['d', 'u', 'n', 'e'], ['H'], 1965, ['S', 'F'], true, ['2', '0', '2', '0']⟩,
    ⟨['D', 'U', 'N', 'E'], ['H'], 1965, ['S', 'F'], false, ['2', '0', '2', '0']⟩], []⟩

/-- Counterexample to claim C3 as stated: `c3_two` contains a record whose
title equals "Dune" case-insensitively, yet `remove_book` does not decrease
the count by exactly one (it removes both matching records). -/
theorem c3_remove_counterexample :
    c3_two.library.countP
        (fun b => decide (lower b.title = lower ['D', 'u', 'n', 'e'])) = 2 ∧
    (remove_book c3_two ['D', 'u', 'n', 'e']).1.library.length + 1 ≠
      c3_two.library.length := by
  decide

theorem starts_with_self (s : List Char) : starts_with s s = true := by
  induction s with
  | nil => rfl
  | cons c t ih => simp [starts_with, ih]

theorem is_substr_refl (s : List Char) : is_substr s s = true := by
  cases s with
  | nil => rfl
  | cons c t => simp [is_substr, starts_with_self]

theorem is_substr_nil_needle (hay : List Char) : is_substr [] hay = true := by
  cases hay with
  | nil => rfl
  | cons c t => simp [is_substr, starts_with]

/-- Claim C4, amended.  After `add_book`, searching by title with the added
title (in any letter case) returns exactly the added record, provided no
record already in the catalog contains the added title as a
case-insensitive substring of its title.  (The original claim, over every
catalog, is refuted by `c4_add_search_counterexample`: search is a
substring match, so an existing title such as "Dune Messiah" also matches
the query "Dune".) -/
theorem c4_add_then_search (s : LMState) (t a : List Char) (y : Int) (g : List Char)
    (r : Bool) (today q : List Char) (hq : lower q = lower t)
    (hnew : ∀ b ∈ s.library, is_substr (lower t) (lower b.title) = false) :
    search_by_title (add_book s t a y g r today).library q =
      [⟨t, a, y, g, r, today⟩] := by
  have hbk : (add_book s t a y g r today).library =
      s.library ++ [⟨t, a, y, g, r, today⟩] := rfl
  unfold search_by_title
  rw [hbk, List.filter_append]
  have h1 : s.library.filter (fun b => is_substr (lower q) (lower b.title)) = [] := by
    apply List.filter_eq_nil_iff.mpr
    intro b hb
    rw [hq]
    simp [hnew b hb]
  have h2 : [(⟨t, a, y, g, r, today⟩ : Book)].filter
      (fun b => is_substr (lower q) (lower b.title)) = [⟨t, a, y, g, r, today⟩] := by
    simp only [List.filter_cons, List.filter_nil]
    rw [hq, is_substr_refl]
    rfl
  rw [h1, h2, List.nil_append]

/-- A catalog holding only "Emma", which does not contain "dune" as a
substring. -/
def c4_base : LMState :=
  ⟨[⟨['E', 'm', 'm', 'a'], ['A'], 1815, ['R'], false, ['2', '0', '2', '1']⟩], []⟩

/-- Witness for C4: adding "Dune" to `c4_base` and searching for "dUNe"
returns exactly the added record. -/
theorem c4_add_search_witness :
    search_by_title
        (add_book c4_base ['D', 'u', 'n', 'e'] ['H'] 1965 ['S', 'F'] true
          ['2', '0', '2', '2']).library ['d', 'U', 'N', 'e'] =
      [⟨['D', 'u', 'n', 'e'], ['H'], 1965, ['S', 'F'], true, ['2', '0', '2', '2']⟩] :=
  c4_add_then_search c4_base ['D', 'u', 'n', 'e'] ['H'] 1965 ['S', 'F'] true
    ['2', '0', '2', '2'] ['d', 'U', 'N', 'e'] (by decide) (by decide)

/-- A catalog already holding "Dune Messiah". -/
def c4_clash : LMState :=
  ⟨[⟨['D', 'u', 'n', 'e', ' ', 'M', 'e', 's', 's', 'i', 'a', 'h'], ['H'], 1969,
      ['S', 'F'], false, ['2', '0', '2', '0']⟩], []⟩

/-- Counterexample to claim C4 as stated: after adding "Dune" to a catalog
already holding "Dune Messiah", searching for the exact title "Dune"
returns two matches, not exactly one. -/
theorem c4_add_search_counterexample :
    (search_by_title
        (add_book c4_clash ['D', 'u', 'n', 'e'] ['H'] 1965 ['S', 'F'] true
          ['2', '0', '2', '2']).library ['D', 'u', 'n', 'e']).length = 2 := by
  decide

/-- Claim C5, amended.  On a nonempty catalog, statistics report
total = number of records, read = number of records with the read flag
set, and percent_read = 100 * read / total (so 4 records with 3 read give
75.0).  On an empty catalog the code prints "Your library is empty." and
reports no numbers at all, refuting the original claim's
"total=0 and read=0" (see `c5_stats_counterexample`). -/
theorem c5_stats_nonempty (lib : List Book) (h : lib ≠ []) :
    display_statistics lib =
      some (lib.length, lib.countP (fun b => b.read),
        100 * (lib.countP (fun b => b.read) : ℚ) / (lib.length : ℚ)) := by
  unfold display_statistics
  rw [if_neg (by simpa using h)]
  show some (lib.length, lib.countP (fun b => b.read),
      ((lib.countP (fun b => b.read) : ℚ) / (lib.length : ℚ)) * 100) =
    some (lib.length, lib.countP (fun b => b.read),
      100 * (lib.countP (fun b => b.read) : ℚ) / (lib.length : ℚ))
  have : ((lib.countP (fun b => b.read) : ℚ) / (lib.length : ℚ)) * 100 =
      100 * (lib.countP (fun b => b.read) : ℚ) / (lib.length : ℚ) := by
    ring
  rw [this]

/-- A catalog of 4 records, 3 of them read. -/
def c5_lib4 : List Book :=
  [⟨['A'], ['W'], 1, ['G'], true, ['D']⟩,
   ⟨['B'], ['X'], 2, ['G'], true, ['D']⟩,
   ⟨['C'], ['Y'], 3, ['G'], true, ['D']⟩,
   ⟨['E'], ['Z'], 4, ['G'], false, ['D']⟩]

/-- Witness for C5: the 4-record catalog with 3 read gives total=4, read=3,
percent_read=75. -/
theorem c5_stats_witness : display_statistics c5_lib4 = some (4, 3, 75) := by
  rw [c5_stats_nonempty c5_lib4 (by decide)]
  have h1 : c5_lib4.length = 4 := rfl
  have h2 : c5_lib4.countP (fun b => b.read) = 3 := rfl
  rw [h1, h2]
  norm_num

/-- Counterexample to claim C5 as stated: on the empty catalog the code
takes the early "Your library is empty." path and reports no statistics,
rather than total=0 and read=0. -/
theorem c5_stats_counterexample : display_statistics [] = none := rfl

/-- Claim C7.  On an I/O failure during load the in-memory catalog is reset
to empty (never left partial); on an I/O failure during save the in-memory
catalog is retained unchanged, and both exception handlers return control
to the caller (the model functions are total). -/
theorem c7_io_failure :
    (∀ (s : LMState) (e : IOErr), (load_library s (Except.error e)).library = []) ∧
    (∀ (s : LMState) (e : IOErr) (disk_after : List Char),
      (save_library_attempt s (Except.error e) disk_after).library = s.library) :=
  ⟨fun _ _ => rfl, fun _ _ _ => rfl⟩

/-- Claim C10.  Searching by title or by author with the empty query
returns the entire catalog in its original order; both searches are pure
filters of the catalog and perform no mutation. -/
theorem c10_search_empty_query (lib : List Book) :
    search_by_title lib [] = lib ∧ search_by_author lib [] = lib := by
  constructor
  · apply List.filter_eq_self.mpr
    intro b _
    exact is_substr_nil_needle (lower b.title)
  · apply List.filter_eq_self.mpr
    intro b _
    exact is_substr_nil_needle (lower b.author)

theorem parse_fields_none_of_short {parts : List (List Char)} (h : parts.length < 6) :
    parse_fields parts = none := by
  rcases parts with _ | ⟨a1, _ | ⟨a2, _ | ⟨a3, _ | ⟨a4, _ | ⟨a5, _ | ⟨a6, tl⟩⟩⟩⟩⟩⟩
  all_goals first
  | rfl
  | (simp only [List.length_cons] at h; omega)

theorem strip_not_empty_of_split {chunk : List Char} {t a y g r d : List Char}
    {tail : List (List Char)}
    (h : split_ch '|' (strip chunk) = t :: a :: y :: g :: r :: d :: tail) :
    (strip chunk).isEmpty = false := by
  cases hs : strip chunk with
  | nil =>
    rw [hs] at h
    exact absurd h (by simp [split_ch])
  | cons c cs => rfl

theorem parse_line_of_split {chunk : List Char} {t a y g r d : List Char}
    {tail : List (List Char)}
    (h : split_ch '|' (strip chunk) = t :: a :: y :: g :: r :: d :: tail) :
    parse_line chunk = some ⟨t, a, (parse_int y).getD 0, g, decide (r = read_tag), d⟩ := by
  show (if (strip chunk).isEmpty = true then none
        else parse_fields (split_ch '|' (strip chunk))) =
      some ⟨t, a, (parse_int y).getD 0, g, decide (r = read_tag), d⟩
  rw [strip_not_empty_of_split h]
  simp only [Bool.false_eq_true, if_false]
  rw [h]
  rfl

theorem parse_line_warns_of_bad_year {chunk : List Char} {t a y g r d : List Char}
    {tail : List (List Char)}
    (h : split_ch '|' (strip chunk) = t :: a :: y :: g :: r :: d :: tail)
    (hy : parse_int y = none) : parse_line_warns chunk = true := by
  show (if (strip chunk).isEmpty = true then false
        else
          match split_ch '|' (strip chunk) with
          | _ :: _ :: y :: _ :: _ :: _ :: _ => (parse_int y).isNone
          | _ => false) = true
  rw [strip_not_empty_of_split h]
  simp only [Bool.false_eq_true, if_false]
  rw [h]
  show (parse_int y).isNone = true
  rw [hy]
  rfl

/-- Claim C6.  Loading is line-by-line and fault-tolerant: a line with
fewer than 6 `'|'`-separated fields is skipped, and the remaining lines
are still loaded; a line whose year field does not parse as an integer
still yields its record, with year 0, and triggers the invalid-year
warning, and loading continues after it. -/
theorem c6_malformed_and_bad_year :
    (∀ (line rest : List Char), '\n' ∉ line →
        (split_ch '|' (strip line)).length < 6 →
        load_lines (line ++ '\n' :: rest) = load_lines rest) ∧
    (∀ (chunk rest : List Char) (t a y g r d : List Char) (tail : List (List Char)),
        '\n' ∉ chunk →
        split_ch '|' (strip chunk) = t :: a :: y :: g :: r :: d :: tail →
        parse_int y = none →
        load_lines (chunk ++ '\n' :: rest) =
            ⟨t, a, 0, g, decide (r = read_tag), d⟩ :: load_lines rest ∧
          parse_line_warns chunk = true) := by
  constructor
  · intro line rest hnl hshort
    have hnone : parse_line line = none := by
      show (if (strip line).isEmpty = true then none
            else parse_fields (split_ch '|' (strip line))) = none
      by_cases he : (strip line).isEmpty = true
      · rw [if_pos he]
      · rw [if_neg he]
        exact parse_fields_none_of_short hshort
    unfold load_lines
    rw [split_ch_append _ hnl, List.filterMap_cons_none hnone]
  · intro chunk rest t a y g r d tail hnl hsplit hy
    constructor
    · unfold load_lines
      rw [split_ch_append _ hnl, List.filterMap_cons_some (parse_line_of_split hsplit), hy]
      rfl
    · exact parse_line_warns_of_bad_year hsplit hy

/-- The file contents "OnlyTwo|Fields\nT|A|abcd|G|Read|D\n". -/
def c6_file : List Char :=
  ['O', 'n', 'l', 'y', 'T', 'w', 'o', '|', 'F', 'i', 'e', 'l', 'd', 's', '\n',
   'T', '|', 'A', '|', 'a', 'b', 'c', 'd', '|', 'G', '|', 'R', 'e', 'a', 'd', '|', 'D', '\n']

/-- Witness for C6: loading `c6_file` skips the malformed first line, still
loads the second line whose year "abcd" becomes 0, and that line triggers
the invalid-year warning. -/
theorem c6_malformed_witness :
    load_lines c6_file = [⟨['T'], ['A'], 0, ['G'], true, ['D']⟩] ∧
    parse_line_warns
      ['T', '|', 'A', '|', 'a', 'b', 'c', 'd', '|', 'G', '|', 'R', 'e', 'a', 'd', '|', 'D'] =
      true := by
  have h1 := c6_malformed_and_bad_year.1
    ['O', 'n', 'l', 'y', 'T', 'w', 'o', '|', 'F', 'i', 'e', 'l', 'd', 's']
    ['T', '|', 'A', '|', 'a', 'b', 'c', 'd', '|', 'G', '|', 'R', 'e', 'a', 'd', '|', 'D', '\n']
    (by decide) (by decide)
  have h2 := c6_malformed_and_bad_year.2
    ['T', '|', 'A', '|', 'a', 'b', 'c', 'd', '|', 'G', '|', 'R', 'e', 'a', 'd', '|', 'D'] []
    ['T'] ['A'] ['a', 'b', 'c', 'd'] ['G'] ['R', 'e', 'a', 'd'] ['D'] []
    (by decide) (by decide) (by decide)
  refine ⟨?_, h2.2⟩
  have hfile : c6_file =
      ['O', 'n', 'l', 'y', 'T', 'w', 'o', '|', 'F', 'i', 'e', 'l', 'd', 's'] ++ '\n' ::
        ['T', '|', 'A', '|', 'a', 'b', 'c', 'd', '|', 'G', '|', 'R', 'e', 'a', 'd', '|', 'D', '\n'] :=
    rfl
  have hrest :
      ['T', '|', 'A', '|', 'a', 'b', 'c', 'd', '|', 'G', '|', 'R', 'e', 'a', 'd', '|', 'D', '\n'] =
        ['T', '|', 'A', '|', 'a', 'b', 'c', 'd', '|', 'G', '|', 'R', 'e', 'a', 'd', '|', 'D'] ++
          '\n' :: [] := rfl
  rw [hfile, h1, hrest, h2.1]
  decide

/-- Claim C9.  A parsed line's read flag is true iff its fifth field is
exactly the string "Read", compared case-sensitively (`decide (r = read_tag)`
is equality of character lists); any other text, including "read" and
"READ", yields an Unread record. -/
theorem c9_read_flag (chunk : List Char) (t a y g r d : List Char)
    (tail : List (List Char))
    (h : split_ch '|' (strip chunk) = t :: a :: y :: g :: r :: d :: tail) :
    parse_line chunk = some ⟨t, a, (parse_int y).getD 0, g, decide (r = read_tag), d⟩ :=
  parse_line_of_split h

/-- Witness for C9: fields "read" and "READ" give an Unread record, the
exact text "Read" gives a Read record. -/
theorem c9_read_flag_witness :
    parse_line ['T', '|', 'A', '|', '1', '|', 'G', '|', 'r', 'e', 'a', 'd', '|', 'D'] =
      some ⟨['T'], ['A'], 1, ['G'], false, ['D']⟩ ∧
    parse_line ['T', '|', 'A', '|', '1', '|', 'G', '|', 'R', 'E', 'A', 'D', '|', 'D'] =
      some ⟨['T'], ['A'], 1, ['G'], false, ['D']⟩ ∧
    parse_line ['T', '|', 'A', '|', '1', '|', 'G', '|', 'R', 'e', 'a', 'd', '|', 'D'] =
      some ⟨['T'], ['A'], 1, ['G'], true, ['D']⟩ := by
  refine ⟨?_, ?_, ?_⟩
  · rw [c9_read_flag ['T', '|', 'A', '|', '1', '|', 'G', '|', 'r', 'e', 'a', 'd', '|', 'D']
      ['T'] ['A'] ['1'] ['G'] ['r', 'e', 'a', 'd'] ['D'] [] (by decide)]
    decide
  · rw [c9_read_flag ['T', '|', 'A', '|', '1', '|', 'G', '|', 'R', 'E', 'A', 'D', '|', 'D']
      ['T'] ['A'] ['1'] ['G'] ['R', 'E', 'A', 'D'] ['D'] [] (by decide)]
    decide
  · rw [c9_read_flag ['T', '|', 'A', '|', '1', '|', 'G', '|', 'R', 'e', 'a', 'd', '|', 'D']
      ['T'] ['A'] ['1'] ['G'] ['R', 'e', 'a', 'd'] ['D'] [] (by decide)]
    decide
